import Mathlib

/-!
Verification of the core of the `brain_reader_gui` application (src/main.rs):
a GUI that captures EEG samples from a Cyton board, sends them to a
classifier, and dispatches the classified movement to a Tello drone.

The Rust source is shallowly embedded:
* `Movements` / `movements_from` embed the `From<&str> for Movements` impl;
* `Prediction`, `display_prediction`, `display_count` embed the history
  rendering helpers;
* `read_cyton_board` embeds the acquisition pipeline, with a `BoardEnv`
  recording which BrainFlow calls succeed and the captured sample matrix,
  and returning the list of pipeline steps actually attempted together
  with the `anyhow::Result` value;
* `csv_to_json` embeds the CSV ingestion helper, with the csv crate's
  record iterator modelled as a list of `Except` values and `str::parse::<f64>`
  modelled as an opaque `parse : String → Option α` function;
* `update` embeds `Sandbox::update` for `PredictionWindow`, with an `Env`
  recording the outcomes of all external calls; the result `Option.none`
  models a process abort (the `unwrap` calls in the lazy `DRONE` initializer),
  and `some` results carry the new state, the reported error (if any) and the
  trace of external effects performed.

Sample values (`f64` in the source) are never computed with, only moved
around, so they are embedded as an opaque type parameter `α`.
-/

namespace BrainReader

/-! ### Injectivity of `Nat.repr`

The Rust code keys its sample maps by `format!("c{}", i)`.  To reason about
those keys we first prove that the decimal rendering of a natural number is
injective, by exhibiting a left inverse that decodes the digit characters. -/

/-- Decode a list of decimal digit characters (most significant first). -/
def decodeDigits (l : List Char) : Nat :=
  l.foldl (fun a c => 10 * a + (c.toNat - 48)) 0

theorem toDigitsCore_shift (b : Nat) :
    ∀ (f n : Nat) (acc : List Char),
      Nat.toDigitsCore b f n acc = Nat.toDigitsCore b f n [] ++ acc := by
  intro f
  induction f with
  | zero => intro n acc; simp [Nat.toDigitsCore]
  | succ f ih =>
    intro n acc
    simp only [Nat.toDigitsCore]
    by_cases h : n / b = 0
    · simp [h]
    · simp only [h, if_false]
      rw [ih (n / b) (Nat.digitChar (n % b) :: acc),
        ih (n / b) [Nat.digitChar (n % b)], List.append_assoc]
      rfl

theorem decodeDigits_append_singleton (l : List Char) (c : Char) :
    decodeDigits (l ++ [c]) = 10 * decodeDigits l + (c.toNat - 48) := by
  simp [decodeDigits, List.foldl_append]

theorem digitChar_toNat_sub (d : Nat) (h : d < 10) :
    (Nat.digitChar d).toNat - 48 = d := by
  interval_cases d <;> decide

theorem decode_toDigitsCore :
    ∀ (f n : Nat), n < f → decodeDigits (Nat.toDigitsCore 10 f n []) = n := by
  intro f
  induction f with
  | zero => intro n h; omega
  | succ f ih =>
    intro n h
    simp only [Nat.toDigitsCore]
    by_cases hdiv : n / 10 = 0
    · have hn : n < 10 := by omega
      simp only [hdiv, if_true]
      simp [decodeDigits, Nat.mod_eq_of_lt hn, digitChar_toNat_sub n hn]
    · have hnpos : 0 < n := by
        rcases Nat.eq_zero_or_pos n with h0 | h0
        · exfalso; apply hdiv; simp [h0]
        · exact h0
      have hlt : n / 10 < f := by
        have := Nat.div_lt_self hnpos (by omega : 1 < 10)
        omega
      simp only [hdiv, if_false]
      rw [toDigitsCore_shift, decodeDigits_append_singleton, ih (n / 10) hlt,
        digitChar_toNat_sub (n % 10) (Nat.mod_lt n (by omega))]
      omega

theorem nat_repr_injective : Function.Injective Nat.repr := by
  intro a b h
  have hdata : Nat.toDigits 10 a = Nat.toDigits 10 b := by
    have : (Nat.toDigits 10 a).asString.data = (Nat.toDigits 10 b).asString.data := by
      rw [show (Nat.toDigits 10 a).asString = Nat.repr a from rfl,
        show (Nat.toDigits 10 b).asString = Nat.repr b from rfl, h]
    simpa [List.asString] using this
  have ha : decodeDigits (Nat.toDigits 10 a) = a :=
    decode_toDigitsCore (a + 1) a (Nat.lt_succ_self a)
  have hb : decodeDigits (Nat.toDigits 10 b) = b :=
    decode_toDigitsCore (b + 1) b (Nat.lt_succ_self b)
  rw [← ha, ← hb, hdata]

/-- The channel key `format!("c{}", i)` used by both the board reader and the
CSV ingester. -/
def chanKey (i : Nat) : String := "c" ++ Nat.repr i

theorem chanKey_injective : Function.Injective chanKey := by
  intro a b h
  have hdata : ("c" ++ Nat.repr a).data = ("c" ++ Nat.repr b).data :=
    congrArg String.data h
  have : (Nat.repr a).data = (Nat.repr b).data := by
    simpa [String.data_append] using hdata
  exact nat_repr_injective (String.ext this)

theorem chanKey_ne {i j : Nat} (h : i ≠ j) : chanKey i ≠ chanKey j :=
  fun hc => h (chanKey_injective hc)

/-! ### MovementResolver: `impl From<&str> for Movements` (main.rs:44-62) -/

/-- The `Movements` enum (main.rs:33-42). -/
inductive Movements where
  | takeoff
  | right
  | left
  | land
  | forward
  | backward
  | none
  deriving DecidableEq, Repr

/-- Embedding of `impl From<&str> for Movements` (main.rs:44-62): an exact
string match over twelve literals, defaulting to `Movements::None`. -/
def movements_from (value : String) : Movements :=
  if value = "takeoff" then .takeoff
  else if value = "right" then .right
  else if value = "left" then .left
  else if value = "land" then .land
  else if value = "forward" then .forward
  else if value = "backward" then .backward
  else if value = "Takeoff" then .takeoff
  else if value = "Right" then .right
  else if value = "Left" then .left
  else if value = "Land" then .land
  else if value = "Forward" then .forward
  else if value = "Backward" then .backward
  else .none

/-- The recognized vocabulary: canonical lowercase and capitalized forms. -/
def movementVocab : List String :=
  ["takeoff", "right", "left", "land", "forward", "backward",
   "Takeoff", "Right", "Left", "Land", "Forward", "Backward"]

/-! ### PredictionHistory rendering (main.rs:380-394) -/

/-- The `Prediction` record received from the classifier (main.rs:27-31). -/
structure Prediction where
  prediction_label : String
  prediction_count : Nat
  deriving DecidableEq, Repr

/-- Embedding of `display_prediction` (main.rs:380-386): folds over the
history in storage order, prepending each label, so the most recent record
ends up first.  `format!("{}\n{}", e.prediction_label, predictions)`. -/
def display_prediction (history : List Prediction) : String :=
  history.foldl (fun predictions e => e.prediction_label ++ "\n" ++ predictions) ""

/-- Embedding of `display_count` (main.rs:388-394); the counter is rendered
in decimal exactly as Rust's `Display` for `usize` does. -/
def display_count (history : List Prediction) : String :=
  history.foldl (fun counts e => Nat.repr e.prediction_count ++ "\n" ++ counts) ""

/-- C7: every input string outside the recognized vocabulary — in particular
the empty string, whitespace, and arbitrary other text — resolves to
`Movements.none` (the `NoOp` variant), and each of the twelve recognized
forms maps by exact string match to its command variant.  The embedding is a
pure function, so resolution has no side effects. -/
theorem movements_from_spec :
    (∀ s : String, s ∉ movementVocab → movements_from s = Movements.none) ∧
    (movements_from "takeoff" = Movements.takeoff ∧
     movements_from "right" = Movements.right ∧
     movements_from "left" = Movements.left ∧
     movements_from "land" = Movements.land ∧
     movements_from "forward" = Movements.forward ∧
     movements_from "backward" = Movements.backward ∧
     movements_from "Takeoff" = Movements.takeoff ∧
     movements_from "Right" = Movements.right ∧
     movements_from "Left" = Movements.left ∧
     movements_from "Land" = Movements.land ∧
     movements_from "Forward" = Movements.forward ∧
     movements_from "Backward" = Movements.backward) := by
  constructor
  · intro s hs
    simp only [movementVocab, List.mem_cons, List.not_mem_nil, or_false, not_or] at hs
    obtain ⟨h1, h2, h3, h4, h5, h6, h7, h8, h9, h10, h11, h12⟩ := hs
    simp [movements_from, h1, h2, h3, h4, h5, h6, h7, h8, h9, h10, h11, h12]
  · decide

/-- Witness for `movements_from_spec` at the empty string, a whitespace
string, and an unrecognized label. -/
theorem movements_from_spec_witness :
    ("" ∉ movementVocab ∧ movements_from "" = Movements.none) ∧
    (" " ∉ movementVocab ∧ movements_from " " = Movements.none) ∧
    ("hover" ∉ movementVocab ∧ movements_from "hover" = Movements.none) :=
  ⟨⟨by decide, movements_from_spec.1 "" (by decide)⟩,
   ⟨by decide, movements_from_spec.1 " " (by decide)⟩,
   ⟨by decide, movements_from_spec.1 "hover" (by decide)⟩⟩

/-- C3 counterexample: after appending `{Forward, 1}` then `{Land, 2}`, the
label rendering is NOT the claimed `"Land\nForward"`: the fold seeds the
accumulator with the empty string, so every line — including the oldest —
is newline-terminated and the result is `"Land\nForward\n"`. -/
theorem display_prediction_cex :
    display_prediction [⟨"Forward", 1⟩, ⟨"Land", 2⟩] ≠ "Land\nForward" := by
  decide

/-- C3 amended: after appending `{Forward, 1}` then `{Land, 2}`, the label
rendering yields `"Land\nForward\n"` (most recent first, each record on its
own newline-terminated line), the count rendering yields `"2\n1\n"` in the
same most-recent-first record order, and the stored history order remains
`[Forward, Land]`; both renderings are pure functions of the history and so
mutate nothing. -/
theorem display_renderings_reversed :
    display_prediction [⟨"Forward", 1⟩, ⟨"Land", 2⟩] = "Land\nForward\n" ∧
    display_count [⟨"Forward", 1⟩, ⟨"Land", 2⟩] = "2\n1\n" ∧
    ([⟨"Forward", 1⟩, ⟨"Land", 2⟩] : List Prediction).map Prediction.prediction_label
      = ["Forward", "Land"] := by
  decide

/-! ### AcquisitionSession: `read_cyton_board` (main.rs:396-423)

The BrainFlow SDK is an external collaborator; a `BoardEnv` records which of
the six fallible calls succeed and the sample matrix the board would return.
`read_cyton_board` returns the list of pipeline steps actually attempted
(each `?` aborts the rest) together with the `anyhow::Result` value. -/

/-- The fallible steps of the capture pipeline, in source order. -/
inductive Step where
  | new_board
  | prepare_session
  | start_stream
  | stop_stream
  | get_board_data
  | release_session
  deriving DecidableEq, Repr

/-- Outcomes of the external BrainFlow calls, plus the sample matrix
(rows = channels) the board would deliver. -/
structure BoardEnv (α : Type) where
  new_ok : Bool
  prepare_ok : Bool
  start_ok : Bool
  stop_ok : Bool
  data_ok : Bool
  release_ok : Bool
  data : List (List α)
  deriving DecidableEq, Repr

def stepOk {α : Type} (env : BoardEnv α) : Step → Bool
  | .new_board => env.new_ok
  | .prepare_session => env.prepare_ok
  | .start_stream => env.start_ok
  | .stop_stream => env.stop_ok
  | .get_board_data => env.data_ok
  | .release_session => env.release_ok

/-- The source-order sequence of pipeline steps. -/
def stepOrder : List Step :=
  [.new_board, .prepare_session, .start_stream, .stop_stream,
   .get_board_data, .release_session]

/-- `HashMap::insert`: replace the value at an existing key, else append the
binding. -/
def hash_insert {β : Type} : List (String × β) → String → β → List (String × β)
  | [], k, v => [(k, v)]
  | (k', v') :: rest, k, v =>
    if k = k' then (k', v) :: rest else (k', v') :: hash_insert rest k v

/-- The `for (i, arr) in data.rows().into_iter().enumerate()` loop of
`read_cyton_board` (main.rs:414-420): each row is copied into a fresh vector
and inserted under the key `format!("c{}", i)`. -/
def to_sample_mapping_loop {α : Type} (i : Nat)
    (readings : List (String × List α)) : List (List α) → List (String × List α)
  | [] => readings
  | r :: rest => to_sample_mapping_loop (i + 1) (hash_insert readings (chanKey i) r) rest

def to_sample_mapping {α : Type} (rows : List (List α)) : List (String × List α) :=
  to_sample_mapping_loop 0 [] rows

/-- Embedding of `read_cyton_board` (main.rs:396-423).  Each fallible call is
followed by `?`, so the first failure aborts the remaining steps; the
`thread::sleep` capture window is not fallible and is omitted.  The first
component is the list of steps attempted (the failing one included). -/
def read_cyton_board {α : Type} (env : BoardEnv α) :
    List Step × Except Step (List (String × List α)) :=
  if env.new_ok = false then
    ([.new_board], .error .new_board)
  else if env.prepare_ok = false then
    ([.new_board, .prepare_session], .error .prepare_session)
  else if env.start_ok = false then
    ([.new_board, .prepare_session, .start_stream], .error .start_stream)
  else if env.stop_ok = false then
    ([.new_board, .prepare_session, .start_stream, .stop_stream],
     .error .stop_stream)
  else if env.data_ok = false then
    ([.new_board, .prepare_session, .start_stream, .stop_stream, .get_board_data],
     .error .get_board_data)
  else if env.release_ok = false then
    (stepOrder, .error .release_session)
  else
    (stepOrder, .ok (to_sample_mapping env.data))

theorem hash_insert_fresh {β : Type} (m : List (String × β)) (k : String) (v : β)
    (h : k ∉ m.map Prod.fst) : hash_insert m k v = m ++ [(k, v)] := by
  induction m with
  | nil => rfl
  | cons p rest ih =>
    obtain ⟨k', v'⟩ := p
    simp only [List.map_cons, List.mem_cons, not_or] at h
    simp only [hash_insert, if_neg h.1]
    rw [ih h.2, List.cons_append]

/-- Looking up a key produced by an injective key function in an association
list built over a duplicate-free index list. -/
theorem lookup_map_of_nodup {β : Type} (l : List Nat) (g : Nat → β) (i : Nat)
    (hnd : l.Nodup) (hi : i ∈ l) :
    (l.map (fun k => (chanKey k, g k))).lookup (chanKey i) = some (g i) := by
  induction l with
  | nil => simp at hi
  | cons a t ih =>
    rcases List.mem_cons.mp hi with rfl | hit
    · simp [List.lookup]
    · have hia : i ≠ a := by
        rintro rfl
        exact (List.nodup_cons.mp hnd).1 hit
      have hne : (chanKey i == chanKey a) = false :=
        beq_eq_false_iff_ne.mpr (chanKey_ne hia)
      simp only [List.map_cons, List.lookup, hne]
      exact ih (List.nodup_cons.mp hnd).2 hit

theorem to_sample_mapping_loop_spec {α : Type} :
    ∀ (rows : List (List α)) (i : Nat) (readings : List (String × List α)),
      (∀ k ∈ readings.map Prod.fst, ∀ j, i ≤ j → k ≠ chanKey j) →
      to_sample_mapping_loop i readings rows
        = readings ++ (List.range rows.length).map
            (fun j => (chanKey (i + j), rows.getD j [])) := by
  intro rows
  induction rows with
  | nil => intro i readings _; simp [to_sample_mapping_loop]
  | cons r rest ih =>
    intro i readings hfresh
    have hnotmem : chanKey i ∉ readings.map Prod.fst := by
      intro hmem
      exact hfresh _ hmem i le_rfl rfl
    have hins : hash_insert readings (chanKey i) r = readings ++ [(chanKey i, r)] :=
      hash_insert_fresh readings (chanKey i) r hnotmem
    have hfresh' : ∀ k ∈ (readings ++ [(chanKey i, r)]).map Prod.fst,
        ∀ j, i + 1 ≤ j → k ≠ chanKey j := by
      intro k hk j hj
      simp only [List.map_append, List.mem_append, List.map_cons, List.map_nil,
        List.mem_cons, List.not_mem_nil, or_false] at hk
      rcases hk with hk | rfl
      · exact hfresh k hk j (by omega)
      · exact chanKey_ne (by omega)
    calc to_sample_mapping_loop i readings (r :: rest)
        = to_sample_mapping_loop (i + 1) (readings ++ [(chanKey i, r)]) rest := by
          simp [to_sample_mapping_loop, hins]
      _ = readings ++ [(chanKey i, r)] ++ (List.range rest.length).map
            (fun j => (chanKey (i + 1 + j), rest.getD j [])) := ih (i + 1) _ hfresh'
      _ = readings ++ (List.range (r :: rest).length).map
            (fun j => (chanKey (i + j), (r :: rest).getD j [])) := by
          rw [List.length_cons, List.range_succ_eq_map, List.map_cons, List.map_map,
            List.append_assoc, List.singleton_append]
          have htail : (List.range rest.length).map
              (fun j => (chanKey (i + 1 + j), rest.getD j []))
              = (List.range rest.length).map
                  ((fun j => (chanKey (i + j), (r :: rest).getD j [])) ∘ Nat.succ) := by
            apply List.map_congr_left
            intro j _
            have hadd : i + (j + 1) = i + 1 + j := by omega
            simp [Function.comp, List.getD_cons_succ, ← hadd]
          rw [htail]
          norm_num

theorem to_sample_mapping_eq {α : Type} (rows : List (List α)) :
    to_sample_mapping rows
      = (List.range rows.length).map (fun j => (chanKey j, rows.getD j [])) := by
  rw [to_sample_mapping, to_sample_mapping_loop_spec rows 0 [] (by simp)]
  simp

/-- C2: if any step of the capture pipeline fails (all earlier steps having
succeeded), the remaining steps are skipped — the attempted-step trace is
exactly the source-order prefix ending at the failing step — and the capture
returns the error tagged with the failing step; in particular no
`SampleMapping` is returned. -/
theorem read_cyton_board_aborts {α : Type} (env : BoardEnv α) (i : Nat)
    (hi : i < stepOrder.length)
    (hfail : stepOk env (stepOrder.getD i Step.new_board) = false)
    (hok : ∀ st ∈ stepOrder.take i, stepOk env st = true) :
    read_cyton_board env
      = (stepOrder.take (i + 1), Except.error (stepOrder.getD i Step.new_board)) := by
  have hi' : i < 6 := by simpa [stepOrder] using hi
  interval_cases i <;> simp_all [read_cyton_board, stepOrder, stepOk]

def c2Env : BoardEnv Int :=
  { new_ok := true, prepare_ok := true, start_ok := true, stop_ok := true,
    data_ok := false, release_ok := true, data := [] }

/-- Witness for `read_cyton_board_aborts`: a drain (`get_board_data`) failure
aborts before `release_session` and yields the tagged error. -/
theorem read_cyton_board_aborts_witness :
    stepOk c2Env (stepOrder.getD 4 Step.new_board) = false ∧
    (∀ st ∈ stepOrder.take 4, stepOk c2Env st = true) ∧
    read_cyton_board c2Env
      = (stepOrder.take 5, Except.error (stepOrder.getD 4 Step.new_board)) :=
  ⟨by decide, by decide,
   read_cyton_board_aborts c2Env 4 (by decide) (by decide) (by decide)⟩

/-- C4: when every pipeline step succeeds, the produced `SampleMapping` has
exactly one key per channel row — the keys are `"c0" .. "c<R-1>"`, pairwise
distinct — the sequence stored under `"c<i>"` is row `i` of the captured
matrix in original sample order, and (for a rectangular matrix, rows of
length `n`) every produced sequence has the same length `n`. -/
theorem read_cyton_board_mapping {α : Type} (env : BoardEnv α) (n : Nat)
    (hall : ∀ st ∈ stepOrder, stepOk env st = true)
    (hrect : ∀ r ∈ env.data, r.length = n) :
    ∃ m, read_cyton_board env = (stepOrder, Except.ok m) ∧
      m.map Prod.fst = (List.range env.data.length).map chanKey ∧
      (m.map Prod.fst).Nodup ∧
      (∀ i, (hi : i < env.data.length) →
        m.lookup (chanKey i) = some (env.data.get ⟨i, hi⟩)) ∧
      (∀ kv ∈ m, kv.2.length = n) := by
  simp only [stepOrder, List.mem_cons, List.not_mem_nil, or_false,
    forall_eq_or_imp, forall_eq, stepOk] at hall
  obtain ⟨h1, h2, h3, h4, h5, h6⟩ := hall
  refine ⟨(List.range env.data.length).map (fun j => (chanKey j, env.data.getD j [])),
    ?_, ?_, ?_, ?_, ?_⟩
  · simp [read_cyton_board, h1, h2, h3, h4, h5, h6, stepOrder, to_sample_mapping_eq]
  · rw [List.map_map]
    rfl
  · rw [List.map_map]
    exact List.Nodup.map (fun a b hab => chanKey_injective hab) (List.nodup_range _)
  · intro i hi
    rw [lookup_map_of_nodup (List.range env.data.length) (fun j => env.data.getD j [])
      i (List.nodup_range _) (List.mem_range.mpr hi)]
    congr 1
    rw [List.getD_eq_getElem _ _ hi]
    simp [List.get_eq_getElem]
  · intro kv hkv
    simp only [List.mem_map, List.mem_range] at hkv
    obtain ⟨j, hj, rfl⟩ := hkv
    simp only
    rw [List.getD_eq_getElem _ _ hj]
    exact hrect _ (List.getElem_mem hj)

def c4Env : BoardEnv Int :=
  { new_ok := true, prepare_ok := true, start_ok := true, stop_ok := true,
    data_ok := true, release_ok := true, data := [[1, 2], [3, 4]] }

/-- Witness for `read_cyton_board_mapping` on a 2x2 capture. -/
theorem read_cyton_board_mapping_witness :
    (∀ st ∈ stepOrder, stepOk c4Env st = true) ∧
    (∀ r ∈ c4Env.data, r.length = 2) ∧
    (∃ m, read_cyton_board c4Env = (stepOrder, Except.ok m) ∧
      m.map Prod.fst = (List.range c4Env.data.length).map chanKey ∧
      (m.map Prod.fst).Nodup ∧
      (∀ i, (hi : i < c4Env.data.length) →
        m.lookup (chanKey i) = some (c4Env.data.get ⟨i, hi⟩)) ∧
      (∀ kv ∈ m, kv.2.length = 2)) :=
  ⟨by decide, by decide, read_cyton_board_mapping c4Env 2 (by decide) (by decide)⟩

/-! ### CSV ingestion: `csv_to_json` (main.rs:452-474)

The csv crate's record iterator is modelled as a list of `Except Unit (List String)`
values (`Ok(record)` / record-level read error), and `str::parse::<f64>` as an
opaque `parse : String → Option α`.  The `while let Some(Ok(record))` loop
stops at the first record-level error and returns `Ok` with whatever was
ingested so far; a failed numeric parse inside a record aborts the whole
function with an error (`?` on `val.parse()`). -/

/-- The error produced by a failed `val.parse::<f64>()?`. -/
inductive CsvError where
  | parseError
  deriving DecidableEq, Repr

/-- The `readings.entry(column).and_modify(|e| e.push(val)).or_insert(vec![val])`
pattern: push onto an existing key's vector, else append a fresh singleton
binding. -/
def push_val {α : Type} : List (String × List α) → String → α → List (String × List α)
  | [], k, v => [(k, [v])]
  | (k1, vs) :: rest, k, v =>
    if k = k1 then (k1, vs ++ [v]) :: rest else (k1, vs) :: push_val rest k v

/-- The inner `for (i, val) in record.iter().enumerate()` loop of `csv_to_json`
(main.rs:461-471): break at column index 32, abort on a failed parse, else
push the value under key `format!("c{}", i)`. -/
def ingest_row {α : Type} (parse : String → Option α) :
    List (String × List α) → List String → Nat →
      Except CsvError (List (String × List α))
  | readings, [], _ => .ok readings
  | readings, val :: rest, i =>
    if i = 32 then .ok readings
    else
      match parse val with
      | Option.none => .error .parseError
      | Option.some x => ingest_row parse (push_val readings (chanKey i) x) rest (i + 1)

/-- The outer `while let Some(Ok(record)) = records.next()` loop: a
record-level read error ends the loop (returning the readings so far); a
parse error inside a record aborts with `Err`. -/
def csv_go {α : Type} (parse : String → Option α) :
    List (Except Unit (List String)) → List (String × List α) →
      Except CsvError (List (String × List α))
  | [], readings => .ok readings
  | .error _ :: _, readings => .ok readings
  | .ok record :: rest, readings =>
    match ingest_row parse readings record 0 with
    | .error e => .error e
    | .ok readings1 => csv_go parse rest readings1

/-- Embedding of `csv_to_json` (main.rs:452-474), starting from an empty map. -/
def csv_to_json {α : Type} (parse : String → Option α)
    (records : List (Except Unit (List String))) :
    Except CsvError (List (String × List α)) :=
  csv_go parse records []

/-- The canonical shape of the readings map: keys `c0 .. c(w-1)` in order,
with column contents given by `cols`. -/
def csvCols {α : Type} (w : Nat) (cols : Nat → List α) : List (String × List α) :=
  (List.range w).map (fun i => (chanKey i, cols i))

theorem csvCols_congr {α : Type} {w : Nat} {f g : Nat → List α}
    (h : ∀ k, k < w → f k = g k) : csvCols w f = csvCols w g := by
  apply List.map_congr_left
  intro k hk
  rw [h k (List.mem_range.mp hk)]

theorem push_val_fresh {α : Type} (m : List (String × List α)) (k : String) (v : α)
    (h : k ∉ m.map Prod.fst) : push_val m k v = m ++ [(k, [v])] := by
  induction m with
  | nil => rfl
  | cons p rest ih =>
    obtain ⟨k1, vs⟩ := p
    simp only [List.map_cons, List.mem_cons, not_or] at h
    simp only [push_val, if_neg h.1]
    rw [ih h.2, List.cons_append]

theorem push_val_map_at {α : Type} (l : List Nat) (cols : Nat → List α)
    (i : Nat) (v : α) (hnd : l.Nodup) (hi : i ∈ l) :
    push_val (l.map (fun k => (chanKey k, cols k))) (chanKey i) v
      = l.map (fun k => (chanKey k, if k = i then cols k ++ [v] else cols k)) := by
  induction l with
  | nil => simp at hi
  | cons a t ih =>
    rcases List.mem_cons.mp hi with rfl | hit
    · simp only [List.map_cons, push_val, if_pos rfl, if_pos]
      congr 1
      apply List.map_congr_left
      intro k hk
      have hki : k ≠ i := by
        rintro rfl
        exact (List.nodup_cons.mp hnd).1 hk
      rw [if_neg hki]
    · have hia : chanKey i ≠ chanKey a := by
        apply chanKey_ne
        rintro rfl
        exact (List.nodup_cons.mp hnd).1 hit
      have hai : a ≠ i := by
        rintro rfl
        exact hia rfl
      simp only [List.map_cons, push_val, if_neg hia, if_neg hai]
      rw [ih (List.nodup_cons.mp hnd).2 hit]

theorem filterMap_cons_toList {α β : Type} (g : α → Option β) (a : α) (l : List α) :
    (a :: l).filterMap g = (g a).toList ++ l.filterMap g := by
  cases h : g a <;> simp [List.filterMap_cons, h]

theorem filterMap_length_of_isSome {α β : Type} (g : α → Option β) :
    ∀ l : List α, (∀ x ∈ l, (g x).isSome = true) →
      (l.filterMap g).length = l.length := by
  intro l
  induction l with
  | nil => intro _; rfl
  | cons a t ih =>
    intro h
    obtain ⟨x, hx⟩ := Option.isSome_iff_exists.mp (h a (List.mem_cons_self a t))
    simp only [List.filterMap_cons, hx, List.length_cons]
    rw [ih (fun y hy => h y (List.mem_cons_of_mem a hy))]

theorem ingest_row_spec {α : Type} (parse : String → Option α) :
    ∀ (vals : List String) (i : Nat) (cols : Nat → List α),
      i ≤ 32 → 32 ≤ i + vals.length →
      (∀ t ∈ vals.take (32 - i), (parse t).isSome = true) →
      ingest_row parse (csvCols 32 cols) vals i
        = Except.ok (csvCols 32 (fun k =>
            if i ≤ k then cols k ++ (parse (vals.getD (k - i) "")).toList
            else cols k)) := by
  intro vals
  induction vals with
  | nil =>
    intro i cols hle hlen _
    have hi32 : i = 32 := by simp at hlen; omega
    subst hi32
    simp only [ingest_row]
    congr 1
  | cons v rest ih =>
    intro i cols hle hlen hsome
    by_cases h32 : i = 32
    · subst h32
      simp only [ingest_row, if_pos rfl]
      congr 1
    · have hlt : i < 32 := by omega
      have htake : (v :: rest).take (32 - i) = v :: rest.take (32 - i - 1) := by
        have h1 : 32 - i = (32 - i - 1) + 1 := by omega
        rw [h1, List.take_succ_cons]
        simp
      obtain ⟨x, hx⟩ : ∃ x, parse v = some x := by
        apply Option.isSome_iff_exists.mp
        apply hsome
        rw [htake]
        exact List.mem_cons_self _ _
      simp only [ingest_row, if_neg h32, hx]
      have hpush : push_val (csvCols 32 cols) (chanKey i) x
          = csvCols 32 (fun k => if k = i then cols k ++ [x] else cols k) :=
        push_val_map_at (List.range 32) cols i x (List.nodup_range _)
          (List.mem_range.mpr hlt)
      rw [hpush, ih (i + 1) _ (by omega) (by simp at hlen ⊢; omega) ?hsome1]
      · congr 1
        apply csvCols_congr
        intro k hk
        rcases lt_trichotomy k i with hki | hki | hki
        · rw [if_neg (by omega : ¬ i + 1 ≤ k), if_neg (by omega : ¬ k = i),
            if_neg (by omega : ¬ i ≤ k)]
        · subst hki
          rw [if_neg (by omega : ¬ k + 1 ≤ k), if_pos rfl, if_pos (le_refl k)]
          simp [Nat.sub_self, hx]
        · rw [if_pos (by omega : i + 1 ≤ k), if_neg (by omega : ¬ k = i),
            if_pos (by omega : i ≤ k)]
          have hsub : k - i = (k - (i + 1)) + 1 := by omega
          rw [hsub, List.getD_cons_succ]
      case hsome1 =>
        intro t ht
        apply hsome
        rw [htake]
        refine List.mem_cons_of_mem _ ?_
        have h2 : 32 - (i + 1) = 32 - i - 1 := by omega
        rwa [h2] at ht

theorem ingest_row_grow {α : Type} (parse : String → Option α) :
    ∀ (vals : List String) (i : Nat) (cols : Nat → List α),
      i ≤ 32 → 32 ≤ i + vals.length →
      (∀ t ∈ vals.take (32 - i), (parse t).isSome = true) →
      ingest_row parse (csvCols i cols) vals i
        = Except.ok (csvCols 32 (fun k =>
            if i ≤ k then (parse (vals.getD (k - i) "")).toList else cols k)) := by
  intro vals
  induction vals with
  | nil =>
    intro i cols hle hlen _
    have hi32 : i = 32 := by simp at hlen; omega
    subst hi32
    simp only [ingest_row]
    congr 1
  | cons v rest ih =>
    intro i cols hle hlen hsome
    by_cases h32 : i = 32
    · subst h32
      simp only [ingest_row, if_pos rfl]
      congr 1
    · have hlt : i < 32 := by omega
      have htake : (v :: rest).take (32 - i) = v :: rest.take (32 - i - 1) := by
        have h1 : 32 - i = (32 - i - 1) + 1 := by omega
        rw [h1, List.take_succ_cons]
        simp
      obtain ⟨x, hx⟩ : ∃ x, parse v = some x := by
        apply Option.isSome_iff_exists.mp
        apply hsome
        rw [htake]
        exact List.mem_cons_self _ _
      simp only [ingest_row, if_neg h32, hx]
      have hfresh : chanKey i ∉ (csvCols i cols).map Prod.fst := by
        rw [csvCols, List.map_map]
        intro hmem
        simp only [List.mem_map, List.mem_range, Function.comp_apply] at hmem
        obtain ⟨j, hj, hkey⟩ := hmem
        exact absurd (chanKey_injective hkey) (by omega)
      have hpush : push_val (csvCols i cols) (chanKey i) x
          = csvCols (i + 1) (fun k => if k = i then [x] else cols k) := by
        rw [push_val_fresh _ _ _ hfresh, csvCols, csvCols, List.range_succ,
          List.map_append]
        congr 1
        · apply List.map_congr_left
          intro k hk
          rw [if_neg (by simp at hk; omega)]
        · simp
      rw [hpush, ih (i + 1) _ (by omega) (by simp at hlen ⊢; omega) ?hsome2]
      · congr 1
        apply csvCols_congr
        intro k hk
        rcases lt_trichotomy k i with hki | hki | hki
        · rw [if_neg (by omega : ¬ i + 1 ≤ k), if_neg (by omega : ¬ k = i),
            if_neg (by omega : ¬ i ≤ k)]
        · subst hki
          rw [if_neg (by omega : ¬ k + 1 ≤ k), if_pos rfl, if_pos (le_refl k)]
          simp [Nat.sub_self, hx]
        · rw [if_pos (by omega : i + 1 ≤ k), if_pos (by omega : i ≤ k)]
          have hsub : k - i = (k - (i + 1)) + 1 := by omega
          rw [hsub, List.getD_cons_succ]
      case hsome2 =>
        intro t ht
        apply hsome
        rw [htake]
        refine List.mem_cons_of_mem _ ?_
        have h2 : 32 - (i + 1) = 32 - i - 1 := by omega
        rwa [h2] at ht

theorem ingest_ok {α : Type} (parse : String → Option α) :
    ∀ (vals : List String) (i : Nat) (readings : List (String × List α)),
      i ≤ 32 →
      (∀ t ∈ vals.take (32 - i), (parse t).isSome = true) →
      ∃ r1, ingest_row parse readings vals i = Except.ok r1 := by
  intro vals
  induction vals with
  | nil => intro i readings _ _; exact ⟨readings, rfl⟩
  | cons v rest ih =>
    intro i readings hle hsome
    by_cases h32 : i = 32
    · subst h32
      exact ⟨readings, by simp [ingest_row]⟩
    · have hlt : i < 32 := by omega
      have htake : (v :: rest).take (32 - i) = v :: rest.take (32 - i - 1) := by
        have h1 : 32 - i = (32 - i - 1) + 1 := by omega
        rw [h1, List.take_succ_cons]
        simp
      obtain ⟨x, hx⟩ : ∃ x, parse v = some x := by
        apply Option.isSome_iff_exists.mp
        apply hsome
        rw [htake]
        exact List.mem_cons_self _ _
      simp only [ingest_row, if_neg h32, hx]
      apply ih (i + 1) _ (by omega)
      intro t ht
      apply hsome
      rw [htake]
      refine List.mem_cons_of_mem _ ?_
      have h2 : 32 - (i + 1) = 32 - i - 1 := by omega
      rwa [h2] at ht

theorem ingest_fail {α : Type} (parse : String → Option α) :
    ∀ (vals : List String) (i : Nat) (readings : List (String × List α)),
      (∃ t ∈ vals.take (32 - i), parse t = Option.none) →
      ingest_row parse readings vals i = Except.error CsvError.parseError := by
  intro vals
  induction vals with
  | nil => intro i readings h; simp at h
  | cons v rest ih =>
    intro i readings h
    obtain ⟨t, ht, hnone⟩ := h
    by_cases hz : 32 - i = 0
    · rw [hz] at ht
      simp at ht
    · have h32 : ¬ i = 32 := by omega
      have htake : (v :: rest).take (32 - i) = v :: rest.take (32 - i - 1) := by
        have h1 : 32 - i = (32 - i - 1) + 1 := by omega
        rw [h1, List.take_succ_cons]
        simp
      rw [htake] at ht
      cases hpv : parse v with
      | none => simp [ingest_row, if_neg h32, hpv]
      | some x =>
        rcases List.mem_cons.mp ht with rfl | ht2
        · rw [hpv] at hnone
          simp at hnone
        · simp only [ingest_row, if_neg h32, hpv]
          apply ih (i + 1)
          refine ⟨t, ?_, hnone⟩
          have h2 : 32 - (i + 1) = 32 - i - 1 := by omega
          rw [h2]
          exact ht2

theorem csv_go_cols {α : Type} (parse : String → Option α) :
    ∀ (rs : List (List String)) (cols : Nat → List α),
      (∀ r ∈ rs, 32 ≤ r.length) →
      (∀ r ∈ rs, ∀ t ∈ r.take 32, (parse t).isSome = true) →
      csv_go parse (rs.map Except.ok) (csvCols 32 cols)
        = Except.ok (csvCols 32 (fun k =>
            cols k ++ rs.filterMap (fun r => parse (r.getD k "")))) := by
  intro rs
  induction rs with
  | nil =>
    intro cols _ _
    simp only [List.map_nil, csv_go, List.filterMap_nil]
    exact congrArg Except.ok (csvCols_congr (fun k _ => (List.append_nil (cols k)).symm))
  | cons r rest ih =>
    intro cols hlen hsome
    have hstep : csv_go parse ((r :: rest).map Except.ok) (csvCols 32 cols)
        = csv_go parse (rest.map Except.ok) (csvCols 32 (fun k =>
            if 0 ≤ k then cols k ++ (parse (r.getD (k - 0) "")).toList
            else cols k)) := by
      simp only [List.map_cons, csv_go]
      rw [ingest_row_spec parse r 0 cols (by omega)
        (by simpa using hlen r (List.mem_cons_self r rest))
        (by simpa using hsome r (List.mem_cons_self r rest))]
    rw [hstep, ih _ (fun q hq => hlen q (List.mem_cons_of_mem r hq))
      (fun q hq => hsome q (List.mem_cons_of_mem r hq))]
    apply congrArg Except.ok
    apply csvCols_congr
    intro k hk
    rw [if_pos (Nat.zero_le k), Nat.sub_zero, filterMap_cons_toList,
      List.append_assoc]

theorem csv_go_prefix {α : Type} (parse : String → Option α) :
    ∀ (pre : List (List String)) (readings : List (String × List α)),
      (∀ p ∈ pre, ∀ t ∈ p.take 32, (parse t).isSome = true) →
      ∃ readings1,
        (∀ tail, csv_go parse (pre.map Except.ok ++ tail) readings
          = csv_go parse tail readings1) ∧
        csv_go parse (pre.map Except.ok) readings = Except.ok readings1 := by
  intro pre
  induction pre with
  | nil =>
    intro readings _
    exact ⟨readings, fun tail => by simp, rfl⟩
  | cons p pt ih =>
    intro readings hpre
    obtain ⟨r1, hr1⟩ := ingest_ok parse p 0 readings (by omega)
      (by simpa using hpre p (List.mem_cons_self p pt))
    obtain ⟨r2, h2, h3⟩ := ih r1 (fun q hq => hpre q (List.mem_cons_of_mem p hq))
    refine ⟨r2, ?_, ?_⟩
    · intro tail
      simp only [List.map_cons, List.cons_append, csv_go, hr1]
      exact h2 tail
    · simp only [List.map_cons, csv_go, hr1]
      exact h3

/-- C6: (a) ingesting `K ≥ 1` records that each have at least 32 columns
whose first 32 tokens all parse yields a mapping with exactly the keys
`c0 .. c31` (in order, pairwise distinct), the sequence under `c<i>` being
the parsed `i`-th token of each record in row order — hence of length `K` —
with columns beyond the 32nd ignored (the hypotheses say nothing about
them); (b) if ingestion reaches a well-formed record one of whose first 32
tokens fails to parse, the whole ingestion aborts with the parse error, so
no partial mapping is returned. -/
theorem csv_ingestion_spec {α : Type} (parse : String → Option α) :
    (∀ rs : List (List String), 0 < rs.length →
      (∀ r ∈ rs, 32 ≤ r.length) →
      (∀ r ∈ rs, ∀ t ∈ r.take 32, (parse t).isSome = true) →
      ∃ m, csv_to_json parse (rs.map Except.ok) = Except.ok m ∧
        m.map Prod.fst = (List.range 32).map chanKey ∧
        (m.map Prod.fst).Nodup ∧
        (∀ i, i < 32 → m.lookup (chanKey i)
            = some (rs.filterMap (fun r => parse (r.getD i "")))) ∧
        (∀ i, i < 32 →
          (rs.filterMap (fun r => parse (r.getD i ""))).length = rs.length)) ∧
    (∀ (pre : List (List String)) (r : List String)
        (rest : List (Except Unit (List String))),
      (∀ p ∈ pre, ∀ t ∈ p.take 32, (parse t).isSome = true) →
      (∃ t ∈ r.take 32, parse t = Option.none) →
      csv_to_json parse (pre.map Except.ok ++ Except.ok r :: rest)
        = Except.error CsvError.parseError) := by
  constructor
  · intro rs hpos hlen hsome
    obtain ⟨r0, rest0, rfl⟩ : ∃ a l, rs = a :: l := by
      cases rs with
      | nil => simp at hpos
      | cons a l => exact ⟨a, l, rfl⟩
    have hgrow : ingest_row parse [] r0 0
        = Except.ok (csvCols 32 (fun k =>
            if 0 ≤ k then (parse (r0.getD (k - 0) "")).toList
            else (fun _ => ([] : List α)) k)) :=
      ingest_row_grow parse r0 0 (fun _ => []) (by omega)
        (by simpa using hlen r0 (List.mem_cons_self r0 rest0))
        (by simpa using hsome r0 (List.mem_cons_self r0 rest0))
    refine ⟨csvCols 32 (fun k =>
        (r0 :: rest0).filterMap (fun r => parse (r.getD k ""))), ?_, ?_, ?_, ?_, ?_⟩
    · show csv_go parse ((r0 :: rest0).map Except.ok) [] = _
      have hstep : csv_go parse ((r0 :: rest0).map Except.ok) []
          = csv_go parse (rest0.map Except.ok) (csvCols 32 (fun k =>
              if 0 ≤ k then (parse (r0.getD (k - 0) "")).toList
              else (fun _ => ([] : List α)) k)) := by
        simp only [List.map_cons, csv_go]
        rw [hgrow]
      rw [hstep]
      rw [csv_go_cols parse rest0 _
        (fun q hq => hlen q (List.mem_cons_of_mem r0 hq))
        (fun q hq => hsome q (List.mem_cons_of_mem r0 hq))]
      apply congrArg Except.ok
      apply csvCols_congr
      intro k hk
      rw [if_pos (Nat.zero_le k), Nat.sub_zero, filterMap_cons_toList]
    · rw [csvCols, List.map_map]
      rfl
    · rw [csvCols, List.map_map]
      exact List.Nodup.map (fun a b hab => chanKey_injective hab) (List.nodup_range _)
    · intro i hi
      exact lookup_map_of_nodup (List.range 32) _ i (List.nodup_range _)
        (List.mem_range.mpr hi)
    · intro i hi
      apply filterMap_length_of_isSome
      intro r hr
      have h32r : 32 ≤ r.length := hlen r hr
      apply hsome r hr
      rw [List.getD_eq_getElem _ _ (by omega)]
      rw [List.mem_take_iff_getElem]
      exact ⟨i, by omega, rfl⟩
  · intro pre r rest hpre hbad
    obtain ⟨r1, hall, _⟩ := csv_go_prefix parse pre [] hpre
    show csv_go parse (pre.map Except.ok ++ Except.ok r :: rest) [] = _
    rw [hall (Except.ok r :: rest)]
    simp only [csv_go]
    rw [ingest_fail parse r 0 r1 (by simpa using hbad)]

def c6Parse : String → Option Int :=
  fun t => if t = "7" then some 7 else Option.none

/-- Witness for `csv_ingestion_spec`: one 32-column record of parseable
tokens for part (a), and a single malformed record for part (b). -/
theorem csv_ingestion_spec_witness :
    (0 < ([List.replicate 32 "7"] : List (List String)).length ∧
     (∀ r ∈ ([List.replicate 32 "7"] : List (List String)), 32 ≤ r.length) ∧
     (∀ r ∈ ([List.replicate 32 "7"] : List (List String)),
        ∀ t ∈ r.take 32, (c6Parse t).isSome = true) ∧
     (∃ m, csv_to_json c6Parse (([List.replicate 32 "7"] : List (List String)).map Except.ok)
          = Except.ok m ∧
        m.map Prod.fst = (List.range 32).map chanKey ∧
        (m.map Prod.fst).Nodup ∧
        (∀ i, i < 32 → m.lookup (chanKey i)
            = some (([List.replicate 32 "7"] : List (List String)).filterMap
                (fun r => c6Parse (r.getD i "")))) ∧
        (∀ i, i < 32 →
          (([List.replicate 32 "7"] : List (List String)).filterMap
              (fun r => c6Parse (r.getD i ""))).length
            = ([List.replicate 32 "7"] : List (List String)).length))) ∧
    ((∃ t ∈ (["oops"] : List String).take 32, c6Parse t = Option.none) ∧
     csv_to_json c6Parse (([] : List (List String)).map Except.ok
          ++ Except.ok ["oops"] :: [])
        = Except.error CsvError.parseError) :=
  ⟨⟨by decide, by decide, by decide,
    (csv_ingestion_spec c6Parse).1 [List.replicate 32 "7"]
      (by decide) (by decide) (by decide)⟩,
   ⟨by decide,
    (csv_ingestion_spec c6Parse).2 [] ["oops"] [] (by decide) (by decide)⟩⟩

/-- C10: a record-level read error from the csv reader ends the ingestion
loop at that record: the result is success with the partial mapping built
from the records already read, not an error. -/
theorem csv_record_error_stops {α : Type} (parse : String → Option α)
    (pre : List (List String)) (rest : List (Except Unit (List String)))
    (hpre : ∀ p ∈ pre, ∀ t ∈ p.take 32, (parse t).isSome = true) :
    csv_to_json parse (pre.map Except.ok ++ Except.error () :: rest)
      = csv_to_json parse (pre.map Except.ok) ∧
    ∃ m, csv_to_json parse (pre.map Except.ok) = Except.ok m := by
  obtain ⟨r1, hall, hok⟩ := csv_go_prefix parse pre [] hpre
  constructor
  · calc csv_to_json parse (pre.map Except.ok ++ Except.error () :: rest)
        = csv_go parse (Except.error () :: rest) r1 := hall _
      _ = Except.ok r1 := rfl
      _ = csv_to_json parse (pre.map Except.ok) := hok.symm
  · exact ⟨r1, hok⟩

def c10Parse : String → Option Int :=
  fun t => if t = "5" then some 5 else Option.none

/-- Witness for `csv_record_error_stops`: one good record, then a
record-level read error, then a further record that is never reached. -/
theorem csv_record_error_stops_witness :
    (∀ p ∈ ([["5", "5"]] : List (List String)),
      ∀ t ∈ p.take 32, (c10Parse t).isSome = true) ∧
    (csv_to_json c10Parse (([["5", "5"]] : List (List String)).map Except.ok
          ++ Except.error () :: [Except.ok ["9"]])
        = csv_to_json c10Parse (([["5", "5"]] : List (List String)).map Except.ok) ∧
      ∃ m, csv_to_json c10Parse (([["5", "5"]] : List (List String)).map Except.ok)
          = Except.ok m) :=
  ⟨by decide,
   csv_record_error_stops c10Parse [["5", "5"]] [Except.ok ["9"]] (by decide)⟩

/-! ### The application driver: `PredictionWindow` and `Sandbox::update`
(main.rs:68-228)

An `Env` records the outcome of every external interaction an `update` call
can make: whether the lazy `DRONE` static is already initialized, whether its
initialization (the `Runtime::new().unwrap()` and
`rt.block_on(CommandMode::new(..)).unwrap()` at main.rs:21-25) would succeed,
whether `DRONE.try_lock()` succeeds, whether `Runtime::new()` in the handler
succeeds, whether `drone.enable()` succeeds, the classifier's reply, and the
board environment for `read_cyton_board`.

`update` returns `Option.none` when the process aborts (the `unwrap`s in the
`DRONE` initializer panic), and otherwise `some` of the new state, the error
reported via `eprintln!` (if any), and the ordered trace of external effects
performed. -/

/-- The `Message` enum (main.rs:76-83). -/
inductive Message where
  | readBrain
  | connect
  | execute
  | takeoff
  | land
  deriving DecidableEq, Repr

/-- The asynchronous drone operations dispatched by the handlers. -/
inductive DroneOp where
  | enable
  | take_off
  | land
  | cw (deg : Nat)
  | ccw (deg : Nat)
  | forward (dist : Nat)
  | back (dist : Nat)
  deriving DecidableEq, Repr

/-- External effects an `update` call can perform, in order. -/
inductive Effect where
  | droneInit
  | tryLock
  | droneOp (op : DroneOp)
  | boardStep (st : Step)
  | httpPost
  deriving DecidableEq, Repr

/-- The failure conditions reported via `eprintln!` by the handlers. -/
inductive UpdateError where
  | readFailed (st : Step)
  | runtimeFailed
  | classificationFailed
  | lockContention
  | enableFailed
  deriving DecidableEq, Repr

/-- The application state (main.rs:68-74). -/
structure PredictionWindow where
  movement : String
  reading_counter : Nat
  history : List Prediction
  connection : Bool
  deriving DecidableEq, Repr

/-- `Sandbox::new` (main.rs:88-95). -/
def PredictionWindow.new : PredictionWindow :=
  { movement := "", reading_counter := 0, history := [], connection := false }

/-- Outcomes of all external interactions during one `update` call. -/
structure Env (α : Type) where
  droneInitialized : Bool
  droneInitOk : Bool
  lockFree : Bool
  runtimeOk : Bool
  enableOk : Bool
  classify : Option Prediction
  board : BoardEnv α
  deriving DecidableEq, Repr

/-- Accessing the `DRONE` static does not panic: either it is already
initialized, or its initialization succeeds. -/
def droneAccessOk {α : Type} (env : Env α) : Bool :=
  env.droneInitialized || env.droneInitOk

/-- The lazy-initialization effect of the first `DRONE` access, if any. -/
def droneInitEffects {α : Type} (env : Env α) : List Effect :=
  if env.droneInitialized then [] else [.droneInit]

/-- The single drone operation dispatched by `Message::Execute`
(main.rs:161-169); `Movements::None` dispatches nothing. -/
def dispatchOps : Movements → List Effect
  | .takeoff => [.droneOp .take_off]
  | .land => [.droneOp .land]
  | .right => [.droneOp (.cw 90)]
  | .left => [.droneOp (.ccw 90)]
  | .forward => [.droneOp (.forward 100)]
  | .backward => [.droneOp (.back 100)]
  | .none => []

/-- The result of an `update` call that returns: the new state, the error
logged (if any), and the trace of external effects. -/
structure UpdateResult where
  state : PredictionWindow
  err : Option UpdateError
  effects : List Effect
  deriving DecidableEq, Repr

/-- Embedding of `Sandbox::update` (main.rs:100-228). `Option.none` models
the process aborting inside the lazy `DRONE` initializer (main.rs:21-25),
which the `Connect`, `Execute`, `Takeoff` and `Land` handlers trigger on
first access; every other path returns.  Device-command results in
`Execute`, `Takeoff` and `Land` are discarded by the source (`let _ = ...`),
so they produce effects but never an error. -/
def update {α : Type} (m : Message) (env : Env α) (s : PredictionWindow) :
    Option UpdateResult :=
  match m with
  | .readBrain =>
    match read_cyton_board env.board with
    | (steps, .error st) =>
      some ⟨s, some (.readFailed st), steps.map Effect.boardStep⟩
    | (steps, .ok _) =>
      if env.runtimeOk = false then
        some ⟨s, some .runtimeFailed, steps.map Effect.boardStep⟩
      else
        match env.classify with
        | Option.none =>
          some ⟨s, some .classificationFailed, steps.map Effect.boardStep ++ [.httpPost]⟩
        | Option.some json =>
          some ⟨{ movement := json.prediction_label,
                  reading_counter := json.prediction_count,
                  history := s.history ++ [json],
                  connection := s.connection },
                Option.none, steps.map Effect.boardStep ++ [.httpPost]⟩
  | .connect =>
    if s.connection = true then some ⟨s, Option.none, []⟩
    else if droneAccessOk env = false then Option.none
    else if env.lockFree = false then
      some ⟨s, some .lockContention, droneInitEffects env ++ [.tryLock]⟩
    else if env.runtimeOk = false then
      some ⟨s, some .runtimeFailed, droneInitEffects env ++ [.tryLock]⟩
    else if env.enableOk = false then
      some ⟨s, some .enableFailed, droneInitEffects env ++ [.tryLock, .droneOp .enable]⟩
    else
      some ⟨{ s with connection := true }, Option.none,
            droneInitEffects env ++ [.tryLock, .droneOp .enable]⟩
  | .execute =>
    if s.connection = false then some ⟨s, Option.none, []⟩
    else if droneAccessOk env = false then Option.none
    else if env.lockFree = false then
      some ⟨s, some .lockContention, droneInitEffects env ++ [.tryLock]⟩
    else if env.runtimeOk = false then
      some ⟨s, some .runtimeFailed, droneInitEffects env ++ [.tryLock]⟩
    else
      some ⟨s, Option.none,
            droneInitEffects env ++ [.tryLock] ++ dispatchOps (movements_from s.movement)⟩
  | .takeoff =>
    if s.connection = false then some ⟨s, Option.none, []⟩
    else if droneAccessOk env = false then Option.none
    else if env.lockFree = false then
      some ⟨s, some .lockContention, droneInitEffects env ++ [.tryLock]⟩
    else if env.runtimeOk = false then
      some ⟨s, some .runtimeFailed, droneInitEffects env ++ [.tryLock]⟩
    else
      some ⟨s, Option.none, droneInitEffects env ++ [.tryLock, .droneOp .take_off]⟩
  | .land =>
    if s.connection = false then some ⟨s, Option.none, []⟩
    else if droneAccessOk env = false then Option.none
    else if env.lockFree = false then
      some ⟨s, some .lockContention, droneInitEffects env ++ [.tryLock]⟩
    else if env.runtimeOk = false then
      some ⟨s, some .runtimeFailed, droneInitEffects env ++ [.tryLock]⟩
    else
      some ⟨s, Option.none, droneInitEffects env ++ [.tryLock, .droneOp .land]⟩

def c9Env : Env Int :=
  { droneInitialized := false, droneInitOk := false, lockFree := false,
    runtimeOk := false, enableOk := false, classify := Option.none,
    board := ⟨false, false, false, false, false, false, []⟩ }

def c9State : PredictionWindow :=
  { movement := "Land", reading_counter := 1,
    history := [⟨"Land", 1⟩], connection := false }

/-- C9: when the connection flag is false, the `Execute`, `Takeoff` and
`Land` handlers return immediately: no lock acquisition is attempted, no
device operation runs (the effect trace is empty — not even the lazy
`DRONE` initialization, so this holds for every environment), no error is
reported, and the whole application state is unchanged. -/
theorem disconnected_actions_noop {α : Type} (env : Env α) (s : PredictionWindow)
    (m : Message) (hm : m = Message.execute ∨ m = Message.takeoff ∨ m = Message.land)
    (hc : s.connection = false) :
    update m env s = some ⟨s, Option.none, []⟩ := by
  rcases hm with rfl | rfl | rfl <;> simp [update, hc]

/-- Witness for `disconnected_actions_noop` on all three handlers, in an
environment where every external interaction would fail. -/
theorem disconnected_actions_noop_witness :
    c9State.connection = false ∧
    update Message.execute c9Env c9State = some ⟨c9State, Option.none, []⟩ ∧
    update Message.takeoff c9Env c9State = some ⟨c9State, Option.none, []⟩ ∧
    update Message.land c9Env c9State = some ⟨c9State, Option.none, []⟩ :=
  ⟨by decide,
   disconnected_actions_noop c9Env c9State Message.execute (Or.inl rfl) (by decide),
   disconnected_actions_noop c9Env c9State Message.takeoff (Or.inr (Or.inl rfl)) (by decide),
   disconnected_actions_noop c9Env c9State Message.land (Or.inr (Or.inr rfl)) (by decide)⟩

/-- `reachesLock m s` holds when handler `m` gets past its connection-flag
guard and reaches the `DRONE.try_lock()` call. -/
def reachesLock : Message → PredictionWindow → Bool
  | .readBrain, _ => false
  | .connect, s => !s.connection
  | .execute, s => s.connection
  | .takeoff, s => s.connection
  | .land, s => s.connection

/-- C5: whenever the shared device lock is already held, any handler that
attempts to acquire it (`Connect` when not yet connected; `Execute`,
`Takeoff`, `Land` when connected) fails immediately with the lock-contention
error: the state is unchanged, the action is dropped (no device operation in
the effect trace) and reported, and there is exactly one `tryLock` attempt —
no waiting, queuing or retrying. -/
theorem lock_contention_fails_fast {α : Type} (env : Env α) (s : PredictionWindow)
    (m : Message) (hm : reachesLock m s = true)
    (hinit : droneAccessOk env = true) (hlock : env.lockFree = false) :
    update m env s = some ⟨s, some UpdateError.lockContention,
      droneInitEffects env ++ [Effect.tryLock]⟩ := by
  cases m <;> (try simp [reachesLock] at hm) <;> simp [update, hm, hinit, hlock]

def c5Env : Env Int :=
  { droneInitialized := false, droneInitOk := true, lockFree := false,
    runtimeOk := true, enableOk := true, classify := Option.none,
    board := ⟨true, true, true, true, true, true, []⟩ }

def c5State : PredictionWindow :=
  { movement := "Forward", reading_counter := 3, history := [], connection := true }

/-- Witness for `lock_contention_fails_fast`: a `Takeoff` request while the
lock is held. -/
theorem lock_contention_fails_fast_witness :
    reachesLock Message.takeoff c5State = true ∧
    droneAccessOk c5Env = true ∧ c5Env.lockFree = false ∧
    update Message.takeoff c5Env c5State
      = some ⟨c5State, some UpdateError.lockContention,
          droneInitEffects c5Env ++ [Effect.tryLock]⟩ :=
  ⟨by decide, by decide, by decide,
   lock_contention_fails_fast c5Env c5State Message.takeoff (by decide) (by decide)
     (by decide)⟩

/-- C8: whenever an `update` call returns with a reported error — any
failure of any of the five handlers — the application state (connection
flag, prediction history, displayed movement label and count) is exactly
the prior state. -/
theorem update_failure_preserves_state {α : Type} (m : Message) (env : Env α)
    (s : PredictionWindow) (r : UpdateResult)
    (h : update m env s = some r) (hf : r.err.isSome = true) :
    r.state = s := by
  cases m <;> simp only [update] at h <;> (repeat' split at h) <;>
    (try simp only [Option.some.injEq] at h) <;> (try subst h) <;> simp_all

def c8Env : Env Int :=
  { droneInitialized := true, droneInitOk := true, lockFree := false,
    runtimeOk := true, enableOk := true, classify := Option.none,
    board := ⟨true, true, true, true, true, true, []⟩ }

/-- Witness for `update_failure_preserves_state` on a lock-contention
failure of `Connect`. -/
theorem update_failure_preserves_state_witness :
    update Message.connect c8Env PredictionWindow.new
        = some ⟨PredictionWindow.new, some UpdateError.lockContention, [Effect.tryLock]⟩ ∧
    (some UpdateError.lockContention).isSome = true ∧
    (UpdateResult.mk PredictionWindow.new (some UpdateError.lockContention)
        [Effect.tryLock]).state = PredictionWindow.new :=
  ⟨by decide, by decide,
   update_failure_preserves_state Message.connect c8Env PredictionWindow.new
     ⟨PredictionWindow.new, some UpdateError.lockContention, [Effect.tryLock]⟩
     (by decide) (by decide)⟩

def c1Env : Env Int :=
  { droneInitialized := false, droneInitOk := false, lockFree := true,
    runtimeOk := true, enableOk := true, classify := Option.none,
    board := ⟨true, true, true, true, true, true, []⟩ }

/-- C1 counterexample: with the `DRONE` static not yet initialized and its
lazy first-use initialization failing (the connection to the flight-control
device cannot be established), pressing Connect hits the `unwrap` calls in
the `DRONE` initializer (main.rs:21-25) and the process aborts
(`Option.none`) — no typed `ConnectionError` value is returned to the
caller, contrary to the claim. -/
theorem connect_unwrap_aborts_cex :
    update Message.connect c1Env PredictionWindow.new = Option.none := by
  decide

/-- C1 amended: provided the lazy first-use initialization of the shared
device handle does not fail (it already ran, or it succeeds), every
coordinator operation returns a typed value rather than aborting, and in
particular a failed `enable` handshake in the Connect handler is reported
as a typed error with the state unchanged.  (When that initialization does
fail, the process aborts via `unwrap` — see `connect_unwrap_aborts_cex`.) -/
theorem connect_typed_errors {α : Type} (env : Env α) (s : PredictionWindow) :
    (∀ m, droneAccessOk env = true → (update m env s).isSome = true) ∧
    (droneAccessOk env = true → s.connection = false → env.lockFree = true →
      env.runtimeOk = true → env.enableOk = false →
      update Message.connect env s = some ⟨s, some UpdateError.enableFailed,
        droneInitEffects env ++ [Effect.tryLock, Effect.droneOp DroneOp.enable]⟩) := by
  constructor
  · intro m hinit
    cases m <;> simp only [update] <;> (repeat' split) <;> simp_all
  · intro h0 h1 h2 h3 h4
    simp [update, h0, h1, h2, h3, h4]

def c1WEnv : Env Int :=
  { droneInitialized := true, droneInitOk := false, lockFree := true,
    runtimeOk := true, enableOk := false, classify := Option.none,
    board := ⟨true, true, true, true, true, true, []⟩ }

/-- Witness for `connect_typed_errors`: the handle is already initialized
and the `enable` handshake fails; Connect returns the typed error. -/
theorem connect_typed_errors_witness :
    droneAccessOk c1WEnv = true ∧
    (update Message.connect c1WEnv PredictionWindow.new).isSome = true ∧
    (PredictionWindow.new.connection = false ∧ c1WEnv.lockFree = true ∧
     c1WEnv.runtimeOk = true ∧ c1WEnv.enableOk = false ∧
     update Message.connect c1WEnv PredictionWindow.new
       = some ⟨PredictionWindow.new, some UpdateError.enableFailed,
           droneInitEffects c1WEnv ++ [Effect.tryLock, Effect.droneOp DroneOp.enable]⟩) :=
  ⟨by decide,
   (connect_typed_errors c1WEnv PredictionWindow.new).1 Message.connect (by decide),
   by decide, by decide, by decide, by decide,
   (connect_typed_errors c1WEnv PredictionWindow.new).2 (by decide) (by decide)
     (by decide) (by decide) (by decide)⟩

end BrainReader
